import Mathlib

/-!
Verification development for the filesystem-confinement and quota layer of
the wings daemon (src/server/filesystem.go).

Paths are modelled as lists of components of an absolute path: the Go string
"/data/srv-1" is the list ["data", "srv-1"].  The Go code performs its
containment checks with strings.HasPrefix on the rendered strings, so the
model keeps both views: the component list, and a rendering to a list of
characters (renderPath) on which the byte-wise prefix test of Go is the
character-list prefix test (the components used here are ASCII, where the
two coincide).  The empty component list renders to the empty string, which
matches the string produced by the Go code in the one place an empty join
arises (strings.Join of a single empty part inside the ancestor loop).

The kernel filesystem calls filepath.EvalSymlinks and ioutil.ReadDir are
abstracted into an FsModel record; concrete models instantiate it for the
scenarios of the claims.
-/

namespace Wings

/-- Outcome of filepath.EvalSymlinks: success with the resolved real path,
failure satisfying os.IsNotExist, or any other error. -/
inductive SymRes where
  | ok (t : List String)
  | notExist
  | otherErr
deriving DecidableEq

/-- True exactly when an EvalSymlinks outcome is a success. -/
def SymRes.isOkRes : SymRes → Bool
  | .ok _ => true
  | _ => false

/-- Outcome of ioutil.ReadDir when it fails. -/
inductive ReadErr where
  | notExist
  | denied
deriving DecidableEq

/-- A directory entry as seen by ioutil.ReadDir: a regular file with its
byte size (FileInfo.Size of a regular file is non-negative, so sizes are
naturals), or a subdirectory. -/
inductive Entry where
  | file (name : String) (size : Nat)
  | dir (name : String)
deriving DecidableEq

/-- Abstraction of the filesystem calls made by the Go code. -/
structure FsModel where
  evalSymlinks : List String → SymRes
  readDir : List String → Except ReadErr (List Entry)

/-- Errors of SafePath: InvalidPathResolution (an escape attempt), or an
underlying non-NotExist error forwarded from EvalSymlinks. -/
inductive PathErr where
  | escape
  | ioErr
deriving DecidableEq

/-- filepath.Clean(filepath.Join(...)) on an absolute path, on the component
view: empty and dot components vanish, a dot-dot component removes the last
kept component (and is dropped at the root). -/
def cleanAbs (cs : List String) : List String :=
  cs.foldl
    (fun acc c =>
      if c = "" || c = "." then acc
      else if c = ".." then acc.dropLast
      else acc ++ [c]) []

/-- Rendering of a component list to the character list of the Go path
string: each component is preceded by a slash.  The empty list renders to
the empty string. -/
def renderPath : List String → List Char
  | [] => []
  | c :: cs => '/' :: (c.data ++ renderPath cs)

/-- strings.HasPrefix(s, pre) on rendered paths. -/
def goHasPre (s pre : List Char) : Bool :=
  pre.isPrefixOf s

/-- The upward loop of SafePath for a not-existing path (filesystem.go
lines 55 to 69): starting from the parent directory of the cleaned
candidate, each ancestor is tried in turn; an ancestor outside the string
span of the confined root stops the loop with nothing found, the first
ancestor whose symlink evaluation succeeds stops it with the resolved path.
The Go loop materialises the tries by joining ever shorter component
slices; its final try is the join of the single leading empty part, the
empty string, which never carries the non-empty root as prefix, matching
the empty-list base case here. -/
def ancestorGo (m : FsModel) (rootS : List Char) : Nat → List String → Option (List String)
  | _, [] => none
  | 0, _ :: _ => none
  | n + 1, c :: rest =>
    if goHasPre (renderPath (c :: rest)) rootS then
      match m.evalSymlinks (c :: rest) with
      | .ok t => some t
      | _ => ancestorGo m rootS n ((c :: rest).dropLast)
    else none

/-- The loop proper: the step counter starts at the length of the list of
components, which each dropLast decreases by exactly one, so the zero
counter with a non-empty list is never reached. -/
def ancestorLoop (m : FsModel) (rootS : List Char) (ds : List String) :
    Option (List String) :=
  ancestorGo m rootS ds.length ds

/-- Filesystem.SafePath (filesystem.go lines 37 to 96).  The confined root
fs.Path() is the component list root; the caller-supplied path p is a
component list (relative components, possibly dot-dot).  The candidate r is
filepath.Clean(filepath.Join(fs.Path(), p)).  On a non-NotExist error of
EvalSymlinks the error is forwarded; on NotExist the ancestor loop runs and,
when it finds a resolution, that resolution is string-prefix-checked against
the root and the original candidate r is returned; when it finds nothing,
control falls through to the final prefix check on the empty string left in
p by the failed EvalSymlinks, which rejects (for a non-empty root).  On
direct success the resolved target is string-prefix-checked and returned. -/
def safePath (m : FsModel) (root : List String) (p : List String) :
    Except PathErr (List String) :=
  let r := cleanAbs (root ++ p)
  let rootS := renderPath root
  match m.evalSymlinks r with
  | .otherErr => .error .ioErr
  | .ok t => if goHasPre (renderPath t) rootS then .ok t else .error .escape
  | .notExist =>
    match ancestorLoop m rootS r.dropLast with
    | some t =>
      if goHasPre (renderPath t) rootS then .ok r else .error .escape
    | none =>
      if goHasPre [] rootS then .ok [] else .error .escape

/-- Errors of DirectorySize: failure of the SafePath gate, failure of the
top-level ReadDir, or fuel exhaustion.  The fuel parameter is only a
termination device for the embedding: the Go recursion terminates because
the filesystem is finite, which corresponds to running with enough fuel;
every theorem below quantifies over or supplies sufficient fuel. -/
inductive WalkErr where
  | resolve (e : PathErr)
  | listing (e : ReadErr)
  | fuel
deriving DecidableEq

/-- Filesystem.DirectorySize (filesystem.go lines 134 to 169), race-free
denotation.  The directory argument is passed through SafePath; the cleaned
result is listed; a regular file adds its size; a subdirectory entry is
handed back to DirectorySize as the absolute joined path (cleaned plus the
entry name), through a goroutine whose error is discarded, so an erroring
recursive call contributes the zero it returns alongside its error.  This
definition sums the contributions in entry order, the value every update
of the shared accumulator landing; the unsynchronized accumulation itself
is modelled separately by raceStep below. -/
def dirSizeGo (m : FsModel) (root : List String) : Nat → List String → Except WalkErr Nat
  | 0, _ => .error .fuel
  | fuel + 1, p =>
    match safePath m root p with
    | .error e => .error (.resolve e)
    | .ok cleaned =>
      match m.readDir cleaned with
      | .error e => .error (.listing e)
      | .ok entries =>
        .ok (entries.foldl
          (fun acc ent =>
            match ent with
            | .file _ sz => acc + sz
            | .dir name =>
              acc +
                (match dirSizeGo m root fuel (cleaned ++ [name]) with
                 | .ok s => s
                 | .error _ => 0)) 0)

/-!
Model of the unsynchronized concurrent accumulation in DirectorySize
(filesystem.go lines 157 to 163).  Each spawned goroutine ends with
size += s, a non-atomic read-modify-write of the shared accumulator: the
task first reads the accumulator into a snapshot, then later writes the
snapshot plus its own contribution back.  A schedule is an interleaving of
these per-task read and write steps.
-/

/-- One step of a task: the read of the shared accumulator or the write of
snapshot plus contribution. -/
inductive AccStep where
  | rd (i : Nat)
  | wr (i : Nat)
deriving DecidableEq

/-- Shared state during the concurrent accumulation: the accumulator, each
task's read snapshot (none before its read), and each task's completion
flag. -/
structure RaceSt where
  acc : Nat
  snaps : List (Option Nat)
  written : List Bool
deriving DecidableEq

/-- Effect of one step on the shared state; none for an ill-formed step
(double read, write before read, unknown task). -/
def raceStep (contribs : List Nat) (st : RaceSt) : AccStep → Option RaceSt
  | .rd i =>
    match st.snaps.get? i with
    | some none => some { st with snaps := st.snaps.set i (some st.acc) }
    | _ => none
  | .wr i =>
    match st.snaps.get? i, st.written.get? i, contribs.get? i with
    | some (some s), some false, some v =>
      some { acc := s + v, snaps := st.snaps, written := st.written.set i true }
    | _, _, _ => none

/-- Run a whole schedule of interleaved steps. -/
def raceRun (contribs : List Nat) (sched : List AccStep) (st : RaceSt) : Option RaceSt :=
  sched.foldl (fun o stp => o.bind (fun s => raceStep contribs s stp)) (some st)

/-- Initial shared state: accumulator zero, no task has read or written. -/
def raceInit (contribs : List Nat) : RaceSt :=
  ⟨0, contribs.map (fun _ => none), contribs.map (fun _ => false)⟩

/-!
Model of Filesystem.HasSpaceAvailable (filesystem.go lines 101 to 129).
Time is measured in minutes.  The per-server cache holds at most the entry
keyed "disk_used": a pair of the stored byte count and its absolute expiry;
an entry past its expiry is treated as absent (the TTL handed to Set is
five minutes).  The directory walk the function may perform is passed in
as its outcome, since the function invokes it at most once per call.
Usage byte counts are naturals: DirectorySize sums non-negative regular
file sizes.
-/

/-- Cache lookup: the stored value when present and unexpired. -/
def cacheGet : Option (Nat × Nat) → Nat → Option Nat
  | some (v, exp), now => if now < exp then some v else none
  | none, _ => none

/-- The final comparison of HasSpaceAvailable (filesystem.go line 128):
size divided by 1024 and by 1024 again, compared against the quota.  The
Go operands are int64, so the untyped constants 1024.0 denote the int64
value 1024 and the division is the integer division of Go, which on the
non-negative size is floor division. -/
def mibCheck (size : Nat) (space : Int) : Bool :=
  decide (((size / 1024 / 1024 : Nat) : Int) ≤ space)

/-- Result of one HasSpaceAvailable call: the returned boolean, the cache
contents after the call, and whether DirectorySize was invoked. -/
structure HsaResult where
  result : Bool
  cache : Option (Nat × Nat)
  walked : Bool
deriving DecidableEq

/-- Filesystem.HasSpaceAvailable.  space is Server.Build.DiskSpace in
mebibytes; cache is the state of the "disk_used" entry; walk is the outcome
DirectorySize would produce if invoked.  Faithful to the Go control flow:
quota at most zero returns true at once; the cache value (zero when absent)
is loaded into size; when size is zero the walk runs, and the Go statement
if size, err := fs.DirectorySize introduces a NEW inner variable size, so
the successful walk result is stored in the cache but the OUTER size, still
zero, is what the final comparison reads. -/
def hasSpaceAvailable (space : Int) (cache : Option (Nat × Nat)) (now : Nat)
    (walk : Except Unit Nat) : HsaResult :=
  if space ≤ 0 then ⟨true, cache, false⟩
  else
    let size : Nat := (cacheGet cache now).getD 0
    if size = 0 then
      match walk with
      | .error _ => ⟨mibCheck size space, cache, true⟩
      | .ok s => ⟨mibCheck size space, some (s, now + 5), true⟩
    else ⟨mibCheck size space, cache, false⟩

/-!
Concrete filesystem models for the scenarios named by the claims.  In all
of them the confined root fs.Path() is /data/srv-1.
-/

/-- The confined root /data/srv-1 used by the concrete scenarios. -/
def dataRoot : List String := ["data", "srv-1"]

/-- Scenario for the sibling regression: the unrelated directory
/data/srv-10 exists next to the confined root /data/srv-1, and
/data/srv-10/x exists.  No symlinks: every existing path resolves to
itself. -/
def mSib : FsModel where
  evalSymlinks := fun ds =>
    if ds = ["data"] || ds = dataRoot || ds = ["data", "srv-10"]
        || ds = ["data", "srv-10", "x"] then
      .ok ds
    else .notExist
  readDir := fun _ => .error .notExist

/-- Scenario for the ancestor walk: /data/link is a symbolic link to the
existing directory /data/srv-1/sub inside the confined root, and
/data/link/x does not exist. -/
def mLink : FsModel where
  evalSymlinks := fun ds =>
    if ds = ["data"] || ds = dataRoot || ds = ["data", "srv-1", "sub"] then
      .ok ds
    else if ds = ["data", "link"] then .ok ["data", "srv-1", "sub"]
    else .notExist
  readDir := fun _ => .error .notExist

/-- Scenario for a fresh path inside the root: only /data and /data/srv-1
exist; /data/srv-1/newdir/leaf is yet to be created. -/
def mFresh : FsModel where
  evalSymlinks := fun ds =>
    if ds = ["data"] || ds = dataRoot then .ok ds else .notExist
  readDir := fun _ => .error .notExist

/-- Scenario for the walker error policy: the root directory holds the
regular file f of 7 bytes and the subdirectory locked, which exists but is
not readable (permission denied). -/
def mDeep : FsModel where
  evalSymlinks := fun ds =>
    if ds = ["data"] || ds = dataRoot || ds = dataRoot ++ ["locked"] then
      .ok ds
    else .notExist
  readDir := fun ds =>
    if ds = dataRoot then .ok [.file "f" 7, .dir "locked"]
    else if ds = dataRoot ++ ["locked"] then .error .denied
    else .error .notExist

/-- Scenario for the two-level size example: the root holds the regular
file f1 of 10 bytes and the readable subdirectory a, which holds the
regular files f2 of 20 bytes and f3 of 30 bytes. -/
def mTree : FsModel where
  evalSymlinks := fun ds =>
    if ds = ["data"] || ds = dataRoot || ds = dataRoot ++ ["a"] then .ok ds
    else .notExist
  readDir := fun ds =>
    if ds = dataRoot then .ok [.file "f1" 10, .dir "a"]
    else if ds = dataRoot ++ ["a"] then .ok [.file "f2" 20, .file "f3" 30]
    else .error .notExist

/-! Supporting lemmas. -/

lemma renderPath_cons (c : String) (cs : List String) :
    renderPath (c :: cs) = '/' :: (c.data ++ renderPath cs) := rfl

lemma renderPath_append (a b : List String) :
    renderPath (a ++ b) = renderPath a ++ renderPath b := by
  induction a with
  | nil => simp [renderPath]
  | cons c cs ih => simp [renderPath, ih]

lemma renderPath_ne_nil (c : String) (cs : List String) :
    renderPath (c :: cs) ≠ [] := by
  rw [renderPath_cons]
  exact List.cons_ne_nil _ _

lemma isPre_append_right {α : Type} [BEq α] [LawfulBEq α] :
    ∀ (p s t : List α), p.isPrefixOf s = true → p.isPrefixOf (s ++ t) = true := by
  intro p
  induction p with
  | nil => intro s t _; simp [List.isPrefixOf]
  | cons a p ih =>
    intro s t h
    cases s with
    | nil => simp [List.isPrefixOf] at h
    | cons b s =>
      simp only [List.isPrefixOf, List.cons_append, Bool.and_eq_true] at h ⊢
      exact ⟨h.1, ih s t h.2⟩

lemma isPre_cancel {α : Type} [BEq α] [LawfulBEq α] :
    ∀ (x u v : List α), u.isPrefixOf v = true → (x ++ u).isPrefixOf (x ++ v) = true := by
  intro x
  induction x with
  | nil => intro u v h; simpa using h
  | cons c x ih =>
    intro u v h
    simp only [List.cons_append, List.isPrefixOf, Bool.and_eq_true]
    exact ⟨by simp, ih u v h⟩

lemma render_hasPre_of_isPre :
    ∀ (a b : List String), a.isPrefixOf b = true →
      goHasPre (renderPath b) (renderPath a) = true := by
  intro a
  induction a with
  | nil => intro b _; simp [goHasPre, renderPath, List.isPrefixOf]
  | cons x xs ih =>
    intro b h
    cases b with
    | nil => simp [List.isPrefixOf] at h
    | cons y ys =>
      simp only [List.isPrefixOf, Bool.and_eq_true, beq_iff_eq] at h
      obtain ⟨rfl, h2⟩ := h
      rw [renderPath_cons, renderPath_cons]
      have := ih ys h2
      simp only [goHasPre] at this ⊢
      exact isPre_cancel ('/' :: x.data) _ _ this

/-- goHasPre is stable under extending the longer path on the right. -/
lemma goHasPre_mono (s s2 pre : List Char) (h : goHasPre s pre = true) :
    goHasPre (s ++ s2) pre = true := by
  simp only [goHasPre] at h ⊢
  exact isPre_append_right pre s s2 h

lemma dropLast_take (l : List String) (k : Nat) (h : k ≤ l.length - 1) :
    l.dropLast.take k = l.take k := by
  rw [List.dropLast_eq_take, List.take_take]
  congr 1
  omega

/-- The ancestor loop finds the resolution of the deepest resolvable
ancestor when that ancestor and everything below it stay within the string
span of the confined root. -/
lemma ancestorGo_finds (m : FsModel) (rootS : List Char) (k : Nat) (t : List String)
    (hroot : rootS ≠ []) :
    ∀ (n : Nat) (ds : List String), ds.length = n → k ≤ n →
      m.evalSymlinks (ds.take k) = .ok t →
      (∀ j, k < j → j ≤ n → (m.evalSymlinks (ds.take j)).isOkRes = false) →
      goHasPre (renderPath (ds.take k)) rootS = true →
      ancestorGo m rootS n ds = some t := by
  intro n
  induction n with
  | zero =>
    intro ds hlen hk hanc hmid hspan
    interval_cases k
    cases ds with
    | nil =>
      simp only [List.take_nil, renderPath, List.foldl_nil, goHasPre] at hspan
      cases rootS with
      | nil => exact absurd rfl hroot
      | cons c cs => simp [List.isPrefixOf] at hspan
    | cons c cs => simp at hlen
  | succ n ih =>
    intro ds hlen hk hanc hmid hspan
    cases ds with
    | nil => simp at hlen
    | cons c rest =>
      rcases Nat.lt_or_ge k (n + 1) with hlt | hge
      · -- k is strictly below the current depth: this try is not the
        -- ancestor yet; it stays in span, fails to resolve, and the loop
        -- recurses on the parent.
        have hsub : (c :: rest).take k ++ (c :: rest).drop k = c :: rest :=
          List.take_append_drop k (c :: rest)
        have hspan2 : goHasPre (renderPath (c :: rest)) rootS = true := by
          rw [← hsub, renderPath_append]
          exact goHasPre_mono _ _ _ hspan
        have hnotok : (m.evalSymlinks (c :: rest)).isOkRes = false := by
          have := hmid (n + 1) hlt (le_refl _)
          rwa [← hlen, List.take_length] at this
        have hdrop : (c :: rest).dropLast.length = n := by
          simp only [List.length_dropLast]
          omega
        have hk' : k ≤ n := by omega
        have htake : (c :: rest).dropLast.take k = (c :: rest).take k := by
          apply dropLast_take
          omega
        have hrec : ancestorGo m rootS n ((c :: rest).dropLast) = some t := by
          apply ih _ hdrop hk'
          · rwa [htake]
          · intro j hj1 hj2
            have htj : (c :: rest).dropLast.take j = (c :: rest).take j := by
              apply dropLast_take
              omega
            rw [htj]
            exact hmid j hj1 (by omega)
          · rwa [htake]
        simp only [ancestorGo, hspan2, if_true]
        cases hres : m.evalSymlinks (c :: rest) with
        | ok u => rw [hres] at hnotok; simp [SymRes.isOkRes] at hnotok
        | notExist => exact hrec
        | otherErr => exact hrec
      · -- k equals the current depth: this try is the ancestor itself.
        have hkeq : k = n + 1 := by omega
        subst hkeq
        have htake : (c :: rest).take (n + 1) = c :: rest := by
          rw [← hlen, List.take_length]
        rw [htake] at hanc hspan
        simp [ancestorGo, hspan, hanc]

/-- DirectorySize with at least one unit of fuel errors exactly when the
top-level SafePath gate or the top-level listing errors. -/
lemma dirSizeGo_error_iff (m : FsModel) (root : List String) (fuel : Nat)
    (p : List String) :
    (∃ e, dirSizeGo m root (fuel + 1) p = .error e) ↔
      (∃ pe, safePath m root p = .error pe) ∨
      (∃ cleaned re, safePath m root p = .ok cleaned ∧ m.readDir cleaned = .error re) := by
  cases hsp : safePath m root p with
  | error pe =>
    simp only [dirSizeGo, hsp]
    constructor
    · intro _
      exact Or.inl ⟨pe, rfl⟩
    · intro _
      exact ⟨.resolve pe, rfl⟩
  | ok cleaned =>
    cases hrd : m.readDir cleaned with
    | error re =>
      simp only [dirSizeGo, hsp, hrd]
      constructor
      · intro _
        exact Or.inr ⟨cleaned, re, rfl, hrd⟩
      · intro _
        exact ⟨.listing re, rfl⟩
    | ok entries =>
      simp only [dirSizeGo, hsp, hrd]
      constructor
      · rintro ⟨e, he⟩
        exact absurd he (by simp)
      · rintro (⟨pe, hpe⟩ | ⟨c, re, hc, hre⟩)
        · exact absurd hpe (by simp)
        · have hc2 : cleaned = c := Except.ok.inj hc
          subst hc2
          exact absurd (hrd.symm.trans hre) (by simp)

/-! Claim theorems. -/

/-- C1: the claim states that a request resolving to the unrelated sibling
/data/srv-10/x, outside the confined root /data/srv-1, fails with
PathEscape.  The code instead ACCEPTS it: SafePath compares the resolved
target against the root with strings.HasPrefix, and the string /data/srv-1
is a literal character prefix of /data/srv-10/x.  This theorem records the
code behaviour on that failing input: the resolved target is not a
component-wise descendant of the root, yet SafePath succeeds. -/
theorem c1_sibling_escape_accepted :
    safePath mSib dataRoot ["..", "srv-10", "x"] = .ok ["data", "srv-10", "x"]
    ∧ List.isPrefixOf dataRoot ["data", "srv-10", "x"] = false :=
  ⟨rfl, rfl⟩

/-- C2: the claim states that on a cache miss with a successful walk
returning S bytes, the freshly computed S is what is compared against the
quota.  The code stores S in the cache with the five-minute TTL, but the Go
statement if size, err := fs.DirectorySize shadows the outer size variable,
so the comparison reads the outer size, still zero, and the call returns
true even when S is far over quota.  Failing input: quota one MiB, empty
cache, walk returning three MiB: the call returns true although three MiB
exceeds the quota. -/
theorem c2_fresh_usage_not_compared :
    hasSpaceAvailable 1 none 0 (.ok 3145728) = ⟨true, some (3145728, 5), true⟩
    ∧ mibCheck 3145728 1 = false :=
  ⟨rfl, rfl⟩

/-- C3 counterexample: the claim quantifies over every relative path whose
deepest existing ancestor resolves inside the confined root.  With
/data/link a symlink to the directory /data/srv-1/sub inside the root, the
request dot-dot link x has the non-existing candidate /data/link/x whose
deepest existing ancestor /data/link resolves to /data/srv-1/sub, a
descendant of the root; yet SafePath rejects, because the ancestor loop
stops as soon as a tried ancestor falls outside the string span of the
root, before ever resolving it. -/
theorem c3_ancestor_outside_span_rejected :
    mLink.evalSymlinks (cleanAbs (dataRoot ++ ["..", "link", "x"])) = .notExist
    ∧ mLink.evalSymlinks ["data", "link"] = .ok ["data", "srv-1", "sub"]
    ∧ List.isPrefixOf dataRoot ["data", "srv-1", "sub"] = true
    ∧ safePath mLink dataRoot ["..", "link", "x"] = .error .escape :=
  ⟨rfl, rfl, rfl, rfl⟩

/-- C3 (amended): for a relative path whose cleaned candidate does not
exist, if the deepest ancestor that EvalSymlinks resolves lies within the
string span of the confined root (the restriction the counterexample
forces: no ancestor outside that span is reached first), no deeper ancestor
resolves, and its resolved real path is a descendant of the confined root,
then SafePath succeeds and returns the normalized pre-symlink candidate,
not the ancestor's resolved path. -/
theorem c3_amended_fresh_path_returns_candidate (m : FsModel) (root p : List String)
    (k : Nat) (t : List String)
    (hroot : root ≠ [])
    (hne : m.evalSymlinks (cleanAbs (root ++ p)) = .notExist)
    (hk : k ≤ (cleanAbs (root ++ p)).dropLast.length)
    (hanc : m.evalSymlinks ((cleanAbs (root ++ p)).dropLast.take k) = .ok t)
    (hmid : ∀ j, k < j → j ≤ (cleanAbs (root ++ p)).dropLast.length →
      (m.evalSymlinks ((cleanAbs (root ++ p)).dropLast.take j)).isOkRes = false)
    (hspan : goHasPre (renderPath ((cleanAbs (root ++ p)).dropLast.take k))
      (renderPath root) = true)
    (hin : List.isPrefixOf root t = true) :
    safePath m root p = .ok (cleanAbs (root ++ p)) := by
  have hrootS : renderPath root ≠ [] := by
    cases root with
    | nil => exact absurd rfl hroot
    | cons c cs => exact renderPath_ne_nil c cs
  have hloop : ancestorLoop m (renderPath root) (cleanAbs (root ++ p)).dropLast = some t :=
    ancestorGo_finds m (renderPath root) k t hrootS _ _ rfl hk hanc hmid hspan
  have htin : goHasPre (renderPath t) (renderPath root) = true :=
    render_hasPre_of_isPre root t hin
  simp [safePath, hne, hloop, htin]

/-- C3 witness: creating /data/srv-1/newdir/leaf below the existing
confined root: SafePath returns the candidate path itself. -/
theorem c3_amended_fresh_path_returns_candidate_w :
    safePath mFresh dataRoot ["newdir", "leaf"] = .ok ["data", "srv-1", "newdir", "leaf"] := by
  have h := c3_amended_fresh_path_returns_candidate mFresh dataRoot ["newdir", "leaf"] 2 dataRoot
    (by decide) (by rfl) (by decide) (by rfl)
    (by
      intro j h1 h2
      have h3 : (cleanAbs (dataRoot ++ ["newdir", "leaf"])).dropLast.length = 3 := rfl
      rw [h3] at h2
      have h4 : j = 3 := by omega
      subst h4
      rfl)
    (by rfl) (by rfl)
  exact h

/-- C4: the claim states that partial sizes of concurrent subdirectory
tasks are folded into the shared running total atomically or after a join,
never by unsynchronized read-modify-write.  The goroutines of DirectorySize
do exactly the latter: each executes size += s on the shared accumulator
with no synchronization, modelled by raceStep as a read followed by a
write of snapshot plus contribution.  With two tasks contributing 1 and 2,
the interleaving read-read-write-write is a valid complete schedule whose
final total is 2: one update is lost, which an atomic or post-join
accumulation can never produce. -/
theorem c4_unsynchronized_accumulation_loses_update :
    raceRun [1, 2] [.rd 0, .rd 1, .wr 0, .wr 1] (raceInit [1, 2]) =
      some ⟨2, [some 0, some 0], [true, true]⟩
    ∧ (2 : Nat) ≠ 1 + 2 :=
  ⟨rfl, by decide⟩

/-- C5 counterexample: the claim says that whenever an unexpired cache
entry with value v is present, the walker is not re-invoked.  For v = 0
the code conflates the cached zero with an empty cache (the guard is
size == 0) and re-runs the directory walk. -/
theorem c5_cached_zero_triggers_walk :
    cacheGet (some (0, 5)) 0 = some 0
    ∧ (hasSpaceAvailable 1 (some (0, 5)) 0 (.ok 7)).walked = true :=
  ⟨rfl, rfl⟩

/-- C5 (amended): for a server with positive quota, whenever a cache entry
with value v that is NOT ZERO (the restriction the counterexample forces)
is present and unexpired, the call returns whether v in MiB is at most the
quota without invoking the walker and leaves the cache unchanged; once the
entry is expired the walker is invoked again.  With the five-minute TTL an
entry stored at minute zero expires at minute five, so a check at minute
four reuses it and a check at minute six recomputes. -/
theorem c5_amended_nonzero_cache_hit (space : Int) (v exp now : Nat)
    (walk : Except Unit Nat) (hq : 0 < space) (hv : v ≠ 0) :
    (now < exp →
      hasSpaceAvailable space (some (v, exp)) now walk =
        ⟨mibCheck v space, some (v, exp), false⟩)
    ∧ (exp ≤ now → (hasSpaceAvailable space (some (v, exp)) now walk).walked = true) := by
  have h1 : ¬ space ≤ 0 := by omega
  constructor
  · intro hnow
    simp [hasSpaceAvailable, cacheGet, h1, hnow, hv]
  · intro hnow
    have h2 : ¬ now < exp := by omega
    cases walk <;> simp [hasSpaceAvailable, cacheGet, h1, h2]

/-- C5 witness: a three-MiB figure stored at minute zero is reused at
minute four without walking, and a check at minute six walks again. -/
theorem c5_amended_nonzero_cache_hit_w :
    hasSpaceAvailable 10 (some (3145728, 5)) 4 (.ok 0) =
      ⟨mibCheck 3145728 10, some (3145728, 5), false⟩
    ∧ (hasSpaceAvailable 10 (some (3145728, 5)) 6 (.ok 0)).walked = true :=
  ⟨(c5_amended_nonzero_cache_hit 10 3145728 5 4 (.ok 0) (by decide) (by decide)).1 (by decide),
   (c5_amended_nonzero_cache_hit 10 3145728 5 6 (.ok 0) (by decide) (by decide)).2 (by decide)⟩

/-- C6: DirectorySize surfaces an error exactly when the SafePath gate or
the listing of the top-level directory fails; any failure inside a deeper
subdirectory is swallowed by the goroutine discarding the recursive error,
that subdirectory contributes the zero returned alongside the error, and
the walk succeeds.  The concrete conjuncts instantiate the permission
scenario: under a root holding a 7-byte file and a subdirectory whose
listing is denied, the walk returns 7 bytes successfully. -/
theorem c6_only_top_level_failures_surface :
    (∀ (m : FsModel) (root : List String) (fuel : Nat) (p : List String),
      (∃ e, dirSizeGo m root (fuel + 1) p = .error e) ↔
        (∃ pe, safePath m root p = .error pe) ∨
        (∃ cleaned re, safePath m root p = .ok cleaned ∧ m.readDir cleaned = .error re))
    ∧ mDeep.readDir (dataRoot ++ ["locked"]) = .error .denied
    ∧ dirSizeGo mDeep dataRoot 5 [] = .ok 7 :=
  ⟨dirSizeGo_error_iff, rfl, rfl⟩

/-- C7: the claim states that a tree with files of 10, 20 and 30 bytes
across two nesting levels yields 60.  The code yields 10: a recursive call
receives the absolute path of the subdirectory, and SafePath joins the
confined root onto it again, producing the non-existing doubled path
/data/srv-1/data/srv-1/a, whose listing fails; the goroutine discards the
error, so every subdirectory contributes zero and only top-level file
sizes are counted (and the unsynchronized accumulation of C4 makes even
that total unreliable under concurrency). -/
theorem c7_nested_sizes_dropped :
    mTree.readDir dataRoot = .ok [.file "f1" 10, .dir "a"]
    ∧ mTree.readDir (dataRoot ++ ["a"]) = .ok [.file "f2" 20, .file "f3" 30]
    ∧ safePath mTree dataRoot (dataRoot ++ ["a"]) =
        .ok ["data", "srv-1", "data", "srv-1", "a"]
    ∧ dirSizeGo mTree dataRoot 5 [] = .ok 10
    ∧ (10 : Nat) ≠ 10 + (20 + 30) :=
  ⟨rfl, rfl, rfl, rfl, by decide⟩

/-- C8: with a quota of at most zero, HasSpaceAvailable returns true at
once for every cache state, every clock and every would-be walk outcome,
leaves the cache untouched and never invokes the walker. -/
theorem c8_nonpositive_quota_unlimited (space : Int) (cache : Option (Nat × Nat))
    (now : Nat) (walk : Except Unit Nat) (h : space ≤ 0) :
    hasSpaceAvailable space cache now walk = ⟨true, cache, false⟩ := by
  simp [hasSpaceAvailable, h]

/-- C8 witness: quota zero with a huge cached usage, and quota minus one
with an erroring walk, both answer true without walking. -/
theorem c8_nonpositive_quota_unlimited_w :
    hasSpaceAvailable 0 (some (999999999999, 50)) 1 (.ok 5) =
      ⟨true, some (999999999999, 50), false⟩
    ∧ hasSpaceAvailable (-1) none 0 (.error ()) = ⟨true, none, false⟩ :=
  ⟨c8_nonpositive_quota_unlimited 0 (some (999999999999, 50)) 1 (.ok 5) (by decide),
   c8_nonpositive_quota_unlimited (-1) none 0 (.error ()) (by decide)⟩

/-- C9: HasSpaceAvailable is a total boolean function in this embedding
(it can never surface an error), and when the walk fails on a cache miss
under a positive quota, the call proceeds with usage zero, leaves the
cache unchanged and returns true, so a usage-computation failure never
blocks the caller.  The warning log is outside the model. -/
theorem c9_walk_failure_degrades_to_true (space : Int) (cache : Option (Nat × Nat))
    (now : Nat) (hq : 0 < space) (hmiss : cacheGet cache now = none) :
    hasSpaceAvailable space cache now (.error ()) = ⟨true, cache, true⟩ := by
  have h1 : ¬ space ≤ 0 := by omega
  have h2 : mibCheck 0 space = true := by
    simp only [mibCheck, Nat.zero_div, Nat.cast_zero, decide_eq_true_eq]
    omega
  simp [hasSpaceAvailable, h1, hmiss, h2]

/-- C9 witness: an expired cache entry counts as a miss; the failing walk
still yields true. -/
theorem c9_walk_failure_degrades_to_true_w :
    hasSpaceAvailable 7 (some (12345, 3)) 10 (.error ()) = ⟨true, some (12345, 3), true⟩ :=
  c9_walk_failure_degrades_to_true 7 (some (12345, 3)) 10 (by decide) (by rfl)

/-- C10: the bytes-to-MiB conversion divides by 1024 twice in integer
arithmetic, so for any usage u and positive quota q the comparison passes
exactly when the floor of u over two to the twentieth is at most q; in
particular a usage of q times two to the twentieth plus one mebibyte minus
one byte, almost a full mebibyte over quota, still passes. -/
theorem c10_floor_division_boundary (u : Nat) (q : Int) (hq : 0 < q) :
    (mibCheck u q = true ↔ ((u / 2 ^ 20 : Nat) : Int) ≤ q)
    ∧ mibCheck (q.toNat * 2 ^ 20 + (2 ^ 20 - 1)) q = true := by
  have hdiv : ∀ n : Nat, n / 1024 / 1024 = n / 2 ^ 20 := by
    intro n
    rw [Nat.div_div_eq_div_mul]
    norm_num
  constructor
  · simp [mibCheck, hdiv]
  · have h1 : (q.toNat * 2 ^ 20 + (2 ^ 20 - 1)) / 2 ^ 20 = q.toNat := by
      rw [Nat.mul_comm, Nat.mul_add_div (by norm_num)]
      norm_num
    simp only [mibCheck, hdiv, h1, decide_eq_true_eq]
    omega

/-- C10 witness: with quota one MiB, a usage of 2097151 bytes, one byte
short of two MiB, still passes the check. -/
theorem c10_floor_division_boundary_w :
    (mibCheck 2097151 1 = true ↔ ((2097151 / 2 ^ 20 : Nat) : Int) ≤ 1)
    ∧ mibCheck (Int.toNat 1 * 2 ^ 20 + (2 ^ 20 - 1)) 1 = true :=
  c10_floor_division_boundary 2097151 1 (by decide)

end Wings
